import Mathlib

/-!
Verification of the `remote` command-multiplexing front-end (Go).

This file gives a shallow embedding of the repository's core logic and
proves/refutes the specification's claims about it:

* the frame codec `protocol.Encode` / `protocol.DecodeLoop`,
* the daemon's `execRemote` command dispatch with allow-list check,
* the single-instance lock `ipc.AcquireLock`,
* the daemon accept loop `serveLoop` with its idle-shutdown rule,
* the encoder's mutex-protected frame atomicity.

Bytes are modelled as `Nat` (values below 256 on real wires; the decoder,
like the Go code, treats stream bytes opaquely).  Machine `uint32`
conversions are modelled with explicit `% 2^32`.
-/

namespace Remote

/-! ## Frame codec (package `protocol`)

Source: the `protocol` package (`Encode`, `DecodeLoop`, packet type
constants `TypeStdout = 0x01`, `TypeStderr = 0x02`, `TypeExit = 0x03`).
-/

/-- Packet type constant `TypeStdout = 0x01`. -/
def TypeStdout : Nat := 1

/-- Packet type constant `TypeStderr = 0x02`. -/
def TypeStderr : Nat := 2

/-- Packet type constant `TypeExit = 0x03`. -/
def TypeExit : Nat := 3

/-- Go's `binary.BigEndian.Uint32` on four byte values. -/
def be32 (b1 b2 b3 b4 : Nat) : Nat :=
  b1 * 16777216 + b2 * 65536 + b3 * 256 + b4

/-- Go's `binary.BigEndian.PutUint32` applied to `uint32(n)`: the four
big-endian bytes of `n % 2^32` (each `byte(..)` conversion is `% 256`). -/
def putUint32 (n : Nat) : List Nat :=
  [n % 4294967296 / 16777216 % 256,
   n % 4294967296 / 65536 % 256,
   n % 4294967296 / 256 % 256,
   n % 4294967296 % 256]

/-- Byte sequence produced on the wire by `Encoder.Encode(pType, data)`:
the 5-byte header `[Type:1][Len:4]` followed by the payload.  (The Go code
skips the payload `Write` call when `len(data) == 0`; the emitted bytes are
the same.) -/
def Encode (pType : Nat) (data : List Nat) : List Nat :=
  pType :: putUint32 data.length ++ data

/-- One callback invocation performed by `DecodeLoop`: `onStdout`,
`onStderr` or `onExit`. -/
inductive DecodeEvent where
  | stdout (payload : List Nat)
  | stderr (payload : List Nat)
  | exit (code : Nat)
deriving DecidableEq, Repr

/-- How a run of `DecodeLoop` ends.  `ok` is a `nil` return, `error` is an
error return from a short read, and `panicked` marks the Go runtime panic
raised by `binary.BigEndian.Uint32` on a payload shorter than 4 bytes. -/
inductive Outcome where
  | ok
  | error
  | panicked
deriving DecidableEq, Repr

/-- Fuelled evaluator for `protocol.DecodeLoop` over a finite byte stream
(end of list is end-of-file).  Each loop iteration:
reads the 5-byte header (`io.ReadFull`: clean EOF with zero bytes read
returns `nil`, a partial header is an error), reads exactly the advertised
payload length (any shortfall is an error), then dispatches on the kind
byte, ignoring unknown kinds.  For `TypeExit` the Go code evaluates
`binary.BigEndian.Uint32(payload)`, which panics when the payload has
fewer than 4 bytes (`payload` is `nil` when the advertised length is 0).
The fuel only forces termination; one iteration consumes at least 5 bytes,
so `length + 1` fuel always suffices. -/
def DecodeLoopF (stop : Nat → Bool) : Nat → List Nat → List DecodeEvent × Outcome
  | _, [] => ([], Outcome.ok)
  | 0, _ :: _ => ([], Outcome.error)
  | fuel + 1, t :: b1 :: b2 :: b3 :: b4 :: rest =>
    let pLen := be32 b1 b2 b3 b4
    if rest.length < pLen then ([], Outcome.error)
    else
      let payload := rest.take pLen
      let rest2 := rest.drop pLen
      if t = TypeStdout then
        let r := DecodeLoopF stop fuel rest2
        (DecodeEvent.stdout payload :: r.1, r.2)
      else if t = TypeStderr then
        let r := DecodeLoopF stop fuel rest2
        (DecodeEvent.stderr payload :: r.1, r.2)
      else if t = TypeExit then
        if pLen < 4 then ([], Outcome.panicked)
        else
          let code := be32 (payload.getD 0 0) (payload.getD 1 0) (payload.getD 2 0) (payload.getD 3 0)
          if stop code then ([DecodeEvent.exit code], Outcome.ok)
          else
            let r := DecodeLoopF stop fuel rest2
            (DecodeEvent.exit code :: r.1, r.2)
      else DecodeLoopF stop fuel rest2
  | _ + 1, _ :: _ => ([], Outcome.error)

/-- `protocol.DecodeLoop` on a finite input stream.  `stop code` is the
boolean returned by the `onExit` callback (`true` ends the loop with a
`nil` return).  The result lists the callback invocations in order and
reports how the loop ended. -/
def DecodeLoop (stop : Nat → Bool) (input : List Nat) : List DecodeEvent × Outcome :=
  DecodeLoopF stop (input.length + 1) input

theorem DecodeLoopF_succ_cons (stop : Nat → Bool) (f t b1 b2 b3 b4 : Nat) (rest : List Nat) :
    DecodeLoopF stop (f + 1) (t :: b1 :: b2 :: b3 :: b4 :: rest) =
      (let pLen := be32 b1 b2 b3 b4
       if rest.length < pLen then ([], Outcome.error)
       else
         let payload := rest.take pLen
         let rest2 := rest.drop pLen
         if t = TypeStdout then
           let r := DecodeLoopF stop f rest2
           (DecodeEvent.stdout payload :: r.1, r.2)
         else if t = TypeStderr then
           let r := DecodeLoopF stop f rest2
           (DecodeEvent.stderr payload :: r.1, r.2)
         else if t = TypeExit then
           if pLen < 4 then ([], Outcome.panicked)
           else
             let code := be32 (payload.getD 0 0) (payload.getD 1 0) (payload.getD 2 0) (payload.getD 3 0)
             if stop code then ([DecodeEvent.exit code], Outcome.ok)
             else
               let r := DecodeLoopF stop f rest2
               (DecodeEvent.exit code :: r.1, r.2)
         else DecodeLoopF stop f rest2) := by
  rfl

theorem DecodeLoopF_nil (stop : Nat → Bool) (f : Nat) :
    DecodeLoopF stop f [] = ([], Outcome.ok) := by
  cases f <;> rfl

theorem DecodeLoopF_fuel (stop : Nat → Bool) :
    ∀ (f1 f2 : Nat) (input : List Nat), input.length < f1 → input.length < f2 →
      DecodeLoopF stop f1 input = DecodeLoopF stop f2 input := by
  intro f1
  induction f1 with
  | zero => intro f2 input h1 _; omega
  | succ n ih =>
    intro f2 input h1 h2
    match f2, input with
    | _, [] => rw [DecodeLoopF_nil, DecodeLoopF_nil]
    | 0, _ :: _ => simp at h2
    | m + 1, [a] => rfl
    | m + 1, [a, b] => rfl
    | m + 1, [a, b, c] => rfl
    | m + 1, [a, b, c, d] => rfl
    | m + 1, t :: b1 :: b2 :: b3 :: b4 :: rest =>
      rw [DecodeLoopF_succ_cons, DecodeLoopF_succ_cons]
      have hrec : ∀ k : Nat,
          DecodeLoopF stop n (rest.drop k) = DecodeLoopF stop m (rest.drop k) := by
        intro k
        apply ih
        · simp only [List.length_drop]
          simp [List.length_cons] at h1
          omega
        · simp only [List.length_drop]
          simp [List.length_cons] at h2
          omega
      simp only [hrec]

theorem DecodeLoop_nil (stop : Nat → Bool) : DecodeLoop stop [] = ([], Outcome.ok) := rfl

/-- Unfolding rule for `DecodeLoop` on an input that has a complete
5-byte header available. -/
theorem DecodeLoop_cons (stop : Nat → Bool) (t b1 b2 b3 b4 : Nat) (rest : List Nat) :
    DecodeLoop stop (t :: b1 :: b2 :: b3 :: b4 :: rest) =
      (let pLen := be32 b1 b2 b3 b4
       if rest.length < pLen then ([], Outcome.error)
       else
         let payload := rest.take pLen
         let rest2 := rest.drop pLen
         if t = TypeStdout then
           let r := DecodeLoop stop rest2
           (DecodeEvent.stdout payload :: r.1, r.2)
         else if t = TypeStderr then
           let r := DecodeLoop stop rest2
           (DecodeEvent.stderr payload :: r.1, r.2)
         else if t = TypeExit then
           if pLen < 4 then ([], Outcome.panicked)
           else
             let code := be32 (payload.getD 0 0) (payload.getD 1 0) (payload.getD 2 0) (payload.getD 3 0)
             if stop code then ([DecodeEvent.exit code], Outcome.ok)
             else
               let r := DecodeLoop stop rest2
               (DecodeEvent.exit code :: r.1, r.2)
         else DecodeLoop stop rest2) := by
  show DecodeLoopF stop ((t :: b1 :: b2 :: b3 :: b4 :: rest).length + 1) _ = _
  have hstep : (t :: b1 :: b2 :: b3 :: b4 :: rest).length + 1 = (rest.length + 5) + 1 := by
    simp
  rw [hstep, DecodeLoopF_succ_cons]
  have hrec : ∀ k : Nat,
      DecodeLoopF stop (rest.length + 5) (rest.drop k) = DecodeLoop stop (rest.drop k) := by
    intro k
    apply DecodeLoopF_fuel
    · simp only [List.length_drop]; omega
    · simp only [List.length_drop]; omega
  simp only [hrec]

/-- Decoding the four length bytes written by `putUint32` recovers the
length when it fits in a `uint32`. -/
theorem be32_putUint32 (n : Nat) (h : n < 4294967296) :
    be32 (n % 4294967296 / 16777216 % 256) (n % 4294967296 / 65536 % 256)
      (n % 4294967296 / 256 % 256) (n % 4294967296 % 256) = n := by
  unfold be32
  omega

/-- C3: for kind `Stdout` or `Stderr` and a payload of length below `2^32`,
encoding the frame with `Encoder.Encode` and then running `DecodeLoop` on
the produced bytes invokes the callback for that same kind exactly once
with exactly the original payload bytes, after which the loop ends cleanly
at end-of-file. -/
theorem C3_encode_decode_roundtrip (stop : Nat → Bool) (k : Nat) (p : List Nat)
    (hk : k = TypeStdout ∨ k = TypeStderr) (hlen : p.length < 4294967296) :
    DecodeLoop stop (Encode k p) =
      ([if k = TypeStdout then DecodeEvent.stdout p else DecodeEvent.stderr p], Outcome.ok) := by
  have hb := be32_putUint32 p.length hlen
  rcases hk with rfl | rfl <;>
    · simp only [Encode, putUint32, List.cons_append, List.nil_append]
      rw [DecodeLoop_cons]
      simp only [hb]
      simp [TypeStdout, TypeStderr, TypeExit, List.take_length, List.drop_length, DecodeLoop_nil]

/-- C3 witness: a concrete round trip through encode and decode. -/
theorem C3_encode_decode_roundtrip_witness :
    DecodeLoop (fun _ => false) (Encode TypeStdout [104, 105]) =
      ([DecodeEvent.stdout [104, 105]], Outcome.ok) :=
  (C3_encode_decode_roundtrip (fun _ => false) TypeStdout [104, 105]
    (Or.inl rfl) (by decide)).trans (by decide)

/-- C5: `DecodeLoop` returns success exactly on a clean end-of-file at a
frame-header boundary with zero header bytes read; end-of-file after a
partial header, or before the advertised payload length has been fully
read, is an error. -/
theorem C5_decode_eof_behavior (stop : Nat → Bool) (input : List Nat) :
    (input = [] → DecodeLoop stop input = ([], Outcome.ok)) ∧
    (input ≠ [] → input.length < 5 → (DecodeLoop stop input).2 = Outcome.error) ∧
    (∀ t b1 b2 b3 b4 rest, input = t :: b1 :: b2 :: b3 :: b4 :: rest →
      rest.length < be32 b1 b2 b3 b4 → DecodeLoop stop input = ([], Outcome.error)) := by
  refine ⟨fun h => by rw [h]; rfl, ?_, ?_⟩
  · intro hne hlen
    match input with
    | [] => exact absurd rfl hne
    | [a] => rfl
    | [a, b] => rfl
    | [a, b, c] => rfl
    | [a, b, c, d] => rfl
    | a :: b :: c :: d :: e :: rest =>
      simp [List.length_cons] at hlen
      omega
  · intro t b1 b2 b3 b4 rest heq hlt
    rw [heq, DecodeLoop_cons]
    simp only [if_pos hlt]

/-- C5 witness: the three end-of-file behaviours on concrete streams. -/
theorem C5_decode_eof_behavior_witness :
    (DecodeLoop (fun _ => false) [] = ([], Outcome.ok)) ∧
    ((DecodeLoop (fun _ => false) [1, 0]).2 = Outcome.error) ∧
    (DecodeLoop (fun _ => false) [1, 0, 0, 0, 5] = ([], Outcome.error)) :=
  ⟨(C5_decode_eof_behavior (fun _ => false) []).1 rfl,
   (C5_decode_eof_behavior (fun _ => false) [1, 0]).2.1 (by decide) (by decide),
   (C5_decode_eof_behavior (fun _ => false) [1, 0, 0, 0, 5]).2.2 1 0 0 0 5 [] rfl (by decide)⟩

/-- C8: a frame whose kind byte is none of `0x01`, `0x02`, `0x03` is
consumed whole (header and advertised payload), invokes no callback, does
not terminate the loop, and decoding proceeds with the next frame. -/
theorem C8_unknown_kind_skipped (stop : Nat → Bool) (k : Nat) (p more : List Nat)
    (h1 : k ≠ TypeStdout) (h2 : k ≠ TypeStderr) (h3 : k ≠ TypeExit)
    (hlen : p.length < 4294967296) :
    DecodeLoop stop (k :: putUint32 p.length ++ (p ++ more)) = DecodeLoop stop more := by
  have hb := be32_putUint32 p.length hlen
  simp only [putUint32, List.cons_append, List.nil_append]
  rw [DecodeLoop_cons]
  simp only [hb]
  have hnlt : ¬ (p ++ more).length < p.length := by
    simp [List.length_append]
  simp [hnlt, h1, h2, h3, List.drop_left]

/-- C8 witness: an unknown kind `0x09` frame is skipped and the following
`Stdout` frame still decodes. -/
theorem C8_unknown_kind_skipped_witness :
    DecodeLoop (fun _ => false)
        ((9 : Nat) :: putUint32 ([7, 8] : List Nat).length ++ ([7, 8] ++ [1, 0, 0, 0, 0])) =
      DecodeLoop (fun _ => false) [1, 0, 0, 0, 0] :=
  C8_unknown_kind_skipped (fun _ => false) 9 [7, 8] [1, 0, 0, 0, 0]
    (by decide) (by decide) (by decide) (by decide)

/-- C10 counterexample: on the concrete stream holding a single `Exit`
frame with advertised payload length 0, the claim that the exit-code
extraction "accesses only bytes that exist in the payload buffer" fails:
`binary.BigEndian.Uint32` is applied to the empty (nil) payload, an
out-of-bounds access that panics at runtime. -/
theorem C10_oob_counterexample :
    DecodeLoop (fun _ => false) [3, 0, 0, 0, 0] = ([], Outcome.panicked) := by
  decide

/-- C10 amended: the exit-code extraction reads payload bytes 0..3, so for
an `Exit` frame whose advertised (and fully present) payload length is at
least 4 it accesses only bytes that exist; but for any advertised length
below 4 — including length 0, where no payload byte is read from the
stream at all — the extraction reads out of bounds and `DecodeLoop`
panics. -/
theorem C10_exit_extraction_bounds (stop : Nat → Bool) (b1 b2 b3 b4 : Nat) (rest : List Nat)
    (hlen : be32 b1 b2 b3 b4 ≤ rest.length) :
    (be32 b1 b2 b3 b4 < 4 →
      DecodeLoop stop (TypeExit :: b1 :: b2 :: b3 :: b4 :: rest) = ([], Outcome.panicked)) ∧
    (4 ≤ be32 b1 b2 b3 b4 →
      DecodeLoop stop (TypeExit :: b1 :: b2 :: b3 :: b4 :: rest) =
        (let code := be32 (rest.getD 0 0) (rest.getD 1 0) (rest.getD 2 0) (rest.getD 3 0)
         if stop code then ([DecodeEvent.exit code], Outcome.ok)
         else
           let r := DecodeLoop stop (rest.drop (be32 b1 b2 b3 b4))
           (DecodeEvent.exit code :: r.1, r.2))) := by
  have hnlt : ¬ rest.length < be32 b1 b2 b3 b4 := by omega
  constructor
  · intro hsmall
    rw [DecodeLoop_cons]
    simp [hnlt, TypeStdout, TypeStderr, TypeExit, hsmall]
  · intro hbig
    rw [DecodeLoop_cons]
    have hget : ∀ i : Nat, i < 4 → (rest.take (be32 b1 b2 b3 b4))[i]? = rest[i]? := by
      intro i hi
      exact List.getElem?_take_of_lt (by omega)
    simp [hnlt, TypeStdout, TypeStderr, TypeExit, show ¬ be32 b1 b2 b3 b4 < 4 by omega,
      hget 0 (by omega), hget 1 (by omega), hget 2 (by omega), hget 3 (by omega)]

/-- C10 witness: a well-formed `Exit` frame (advertised length 4) decodes
its code from existing bytes only. -/
theorem C10_exit_extraction_bounds_witness :
    DecodeLoop (fun _ => true) (TypeExit :: 0 :: 0 :: 0 :: 4 :: [0, 0, 0, 7]) =
      ([DecodeEvent.exit 7], Outcome.ok) :=
  (((C10_exit_extraction_bounds (fun _ => true) 0 0 0 4 [0, 0, 0, 7]
    (by decide)).2 (by decide)).trans (by decide))

/-! ## Encoder atomicity (the `Encoder` mutex)

`Encoder.Encode` acquires the encoder's mutex, writes the 5-byte header,
writes the payload when nonempty, and releases the mutex on return.  We
model one `Encode` call as its sequence of events (lock, the `Write`
calls it issues on the shared writer, unlock), concurrent execution as an
arbitrary order-preserving interleaving of two calls' event sequences,
and the mutex as a validity predicate on the interleaved trace: a lock
succeeds only when the mutex is free, an unlock only by the holder. -/

/-- One observable event of an `Encode` call on the shared encoder:
acquiring the mutex, a `Write` on the underlying writer, or releasing the
mutex.  `tid` identifies the calling goroutine. -/
inductive EncEvent where
  | lock (tid : Nat)
  | unlock (tid : Nat)
  | write (tid : Nat) (bytes : List Nat)
deriving DecidableEq, Repr

/-- Writer calls issued by `Encode(pType, data)` while the mutex is held:
the 5-byte header write, then the payload write unless the payload is
empty (the Go code skips the second `Write` when `len(data) == 0`). -/
def writeEventsOf (tid pType : Nat) (data : List Nat) : List EncEvent :=
  EncEvent.write tid (pType :: putUint32 data.length) ::
    (if 0 < data.length then [EncEvent.write tid data] else [])

/-- Complete event sequence of one `Encode(pType, data)` call: lock, the
writer calls, unlock (the `defer`red `Unlock`). -/
def EncodeEvents (tid pType : Nat) (data : List Nat) : List EncEvent :=
  EncEvent.lock tid :: (writeEventsOf tid pType data ++ [EncEvent.unlock tid])

/-- Mutex semantics over a trace: a `lock` succeeds only when no caller
holds the mutex, an `unlock` only by the current holder; `write` events do
not touch the mutex. -/
def mutexOk : Option Nat → List EncEvent → Bool
  | _, [] => true
  | none, EncEvent.lock t :: rest => mutexOk (some t) rest
  | some h, EncEvent.unlock t :: rest => h == t && mutexOk none rest
  | st, EncEvent.write _ _ :: rest => mutexOk st rest
  | _, _ => false

/-- Bytes that reach the underlying writer, in trace order. -/
def writesOf : List EncEvent → List Nat
  | [] => []
  | EncEvent.write _ bs :: rest => bs ++ writesOf rest
  | _ :: rest => writesOf rest

/-- `Interleave l1 l2 l`: `l` is an order-preserving merge of `l1` and
`l2` (the possible concurrent schedules of the two calls). -/
inductive Interleave : List EncEvent → List EncEvent → List EncEvent → Prop
  | nil : Interleave [] [] []
  | left : ∀ {x : EncEvent} {l1 l2 l : List EncEvent},
      Interleave l1 l2 l → Interleave (x :: l1) l2 (x :: l)
  | right : ∀ {x : EncEvent} {l1 l2 l : List EncEvent},
      Interleave l1 l2 l → Interleave l1 (x :: l2) (x :: l)

theorem interleave_nil_left : ∀ {l1 l2 l : List EncEvent},
    Interleave l1 l2 l → l1 = [] → l = l2 := by
  intro l1 l2 l h
  induction h with
  | nil => intro _; rfl
  | left _ _ => intro he; simp at he
  | right _ ih => intro he; rw [ih he]

theorem interleave_swap : ∀ {l1 l2 l : List EncEvent},
    Interleave l1 l2 l → Interleave l2 l1 l := by
  intro l1 l2 l h
  induction h with
  | nil => exact Interleave.nil
  | left _ ih => exact Interleave.right ih
  | right _ ih => exact Interleave.left ih

theorem interleave_append (l1 l2 : List EncEvent) : Interleave l1 l2 (l1 ++ l2) := by
  induction l1 with
  | nil =>
    induction l2 with
    | nil => exact Interleave.nil
    | cons x l ih => exact Interleave.right ih
  | cons x l ih => exact Interleave.left ih

/-- While caller `a` holds the mutex, a valid schedule must run all of
`a`'s remaining critical-section events (writes, then the unlock) before
the other caller's `lock` can proceed; afterwards the remaining trace is
exactly the other caller's sequence. -/
theorem interleave_locked :
    ∀ (ws : List EncEvent) (a b : Nat) (l2 tr : List EncEvent),
      (∀ e ∈ ws, ∃ bs, e = EncEvent.write a bs) →
      Interleave (ws ++ [EncEvent.unlock a]) (EncEvent.lock b :: l2) tr →
      mutexOk (some a) tr = true →
      tr = ws ++ EncEvent.unlock a :: EncEvent.lock b :: l2 := by
  intro ws
  induction ws with
  | nil =>
    intro a b l2 tr _ h hm
    simp only [List.nil_append] at h ⊢
    cases h with
    | left h2 =>
      rw [interleave_nil_left h2 rfl]
    | right h2 =>
      simp [mutexOk] at hm
  | cons w ws ih =>
    intro a b l2 tr hw h hm
    obtain ⟨bs, rfl⟩ := hw w (by simp)
    simp only [List.cons_append] at h
    cases h with
    | left h2 =>
      rename_i l
      have hm2 : mutexOk (some a) l = true := by simpa [mutexOk] using hm
      rw [ih a b l2 l (fun e he => hw e (List.mem_cons_of_mem _ he)) h2 hm2]
      simp
    | right h2 =>
      simp [mutexOk] at hm

theorem writesOf_append (l1 l2 : List EncEvent) :
    writesOf (l1 ++ l2) = writesOf l1 ++ writesOf l2 := by
  induction l1 with
  | nil => simp [writesOf]
  | cons e l ih => cases e <;> simp [writesOf, ih]

theorem writesOf_writeEventsOf (tid pType : Nat) (data : List Nat) :
    writesOf (writeEventsOf tid pType data) = Encode pType data := by
  by_cases hd : 0 < data.length
  · simp [writeEventsOf, hd, writesOf, Encode]
  · have hd0 : data = [] := by
      cases data with
      | nil => rfl
      | cons x l => simp at hd
    subst hd0
    simp [writeEventsOf, writesOf, Encode]

/-- C9: for any two concurrent `Encode` calls on the same `Encoder`, every
schedule permitted by the encoder's mutex writes the byte sequence of one
whole frame followed by the other whole frame: the header and payload of
one frame are never interleaved with bytes of the other. -/
theorem C9_encode_atomic (t1 p1 : Nat) (d1 : List Nat) (t2 p2 : Nat) (d2 : List Nat)
    (tr : List EncEvent)
    (hil : Interleave (EncodeEvents t1 p1 d1) (EncodeEvents t2 p2 d2) tr)
    (hok : mutexOk none tr = true) :
    writesOf tr = Encode p1 d1 ++ Encode p2 d2 ∨
      writesOf tr = Encode p2 d2 ++ Encode p1 d1 := by
  simp only [EncodeEvents] at hil
  cases hil with
  | left h2 =>
    rename_i l
    left
    have hok2 : mutexOk (some t1) l = true := by simpa [mutexOk] using hok
    have hshape := interleave_locked (writeEventsOf t1 p1 d1) t1 t2 _ l
      (by
        intro e he
        by_cases hd : 0 < d1.length
        · simp [writeEventsOf, hd] at he
          rcases he with rfl | rfl
          · exact ⟨_, rfl⟩
          · exact ⟨_, rfl⟩
        · simp [writeEventsOf, hd] at he
          exact ⟨_, he⟩)
      h2 hok2
    rw [hshape]
    show writesOf (writeEventsOf t1 p1 d1 ++
      EncEvent.unlock t1 :: EncEvent.lock t2 ::
        (writeEventsOf t2 p2 d2 ++ [EncEvent.unlock t2])) = _
    rw [writesOf_append, writesOf_writeEventsOf]
    have h3 : writesOf (EncEvent.unlock t1 :: EncEvent.lock t2 ::
        (writeEventsOf t2 p2 d2 ++ [EncEvent.unlock t2])) = Encode p2 d2 := by
      show writesOf (writeEventsOf t2 p2 d2 ++ [EncEvent.unlock t2]) = _
      rw [writesOf_append, writesOf_writeEventsOf]
      show Encode p2 d2 ++ ([] : List Nat) = _
      rw [List.append_nil]
    rw [h3]
  | right h2 =>
    rename_i l
    right
    have hok2 : mutexOk (some t2) l = true := by simpa [mutexOk] using hok
    have hshape := interleave_locked (writeEventsOf t2 p2 d2) t2 t1 _ l
      (by
        intro e he
        by_cases hd : 0 < d2.length
        · simp [writeEventsOf, hd] at he
          rcases he with rfl | rfl
          · exact ⟨_, rfl⟩
          · exact ⟨_, rfl⟩
        · simp [writeEventsOf, hd] at he
          exact ⟨_, he⟩)
      (interleave_swap h2) hok2
    rw [hshape]
    show writesOf (writeEventsOf t2 p2 d2 ++
      EncEvent.unlock t2 :: EncEvent.lock t1 ::
        (writeEventsOf t1 p1 d1 ++ [EncEvent.unlock t1])) = _
    rw [writesOf_append, writesOf_writeEventsOf]
    have h3 : writesOf (EncEvent.unlock t2 :: EncEvent.lock t1 ::
        (writeEventsOf t1 p1 d1 ++ [EncEvent.unlock t1])) = Encode p1 d1 := by
      show writesOf (writeEventsOf t1 p1 d1 ++ [EncEvent.unlock t1]) = _
      rw [writesOf_append, writesOf_writeEventsOf]
      show Encode p1 d1 ++ ([] : List Nat) = _
      rw [List.append_nil]
    rw [h3]

/-- C9 witness: a concrete mutex-valid schedule of two concurrent `Encode`
calls yields the two frames whole, in one order or the other. -/
theorem C9_encode_atomic_witness :
    writesOf (EncodeEvents 0 TypeStdout [7] ++ EncodeEvents 1 TypeStderr []) =
        Encode TypeStdout [7] ++ Encode TypeStderr [] ∨
      writesOf (EncodeEvents 0 TypeStdout [7] ++ EncodeEvents 1 TypeStderr []) =
        Encode TypeStderr [] ++ Encode TypeStdout [7] :=
  C9_encode_atomic 0 TypeStdout [7] 1 TypeStderr []
    (EncodeEvents 0 TypeStdout [7] ++ EncodeEvents 1 TypeStderr [])
    (interleave_append _ _) (by decide)

/-! ## Daemon command dispatch (`daemon.execRemote`, `config.IsCommandAllowed`)

Commands and allow-list entries are byte strings (Go strings are byte
slices; comparisons are byte-equal).  `strings.Fields` splits on runs of
whitespace; we model the whitespace class on the ASCII range, which is
what `unicode.IsSpace` recognises there (tab, newline, vertical tab, form
feed, carriage return, space). -/

/-- ASCII whitespace as recognised by Go's `unicode.IsSpace`. -/
def isSpaceByte (b : Nat) : Bool :=
  b == 9 || b == 10 || b == 11 || b == 12 || b == 13 || b == 32

/-- Go's `strings.Fields`: the maximal runs of non-whitespace bytes, in
order, with no empty fields. -/
def stringsFields (s : List Nat) : List (List Nat) :=
  (s.splitOnP isSpaceByte).filter (fun t => !t.isEmpty)

/-- Bytes of a Lean string literal (used only for ASCII literals, where
code points and bytes coincide). -/
def str2bytes (s : String) : List Nat := s.toList.map Char.toNat

/-- `config.IsCommandAllowed`: scans the `allowed_commands` list and
returns true exactly when some entry equals the command (byte-equal). -/
def IsCommandAllowed (allowed : List (List Nat)) (command : List Nat) : Bool :=
  allowed.any (fun a => command == a)

/-- One frame emission `enc.Encode(kind, data)` performed by `execRemote`. -/
structure Frame where
  kind : Nat
  data : List Nat
deriving DecidableEq, Repr

/-- `daemon.intToBytes`: the 4 big-endian bytes of `uint32(n)`. -/
def intToBytes (n : Nat) : List Nat := putUint32 n

/-- Classification of the error value returned by
`session.CombinedOutput(cmd)`: `nil`, an `*ssh.ExitError` carrying the
remote exit status, or any other error. -/
inductive RemoteResult where
  | success
  | exitError (status : Nat)
  | otherError
deriving DecidableEq, Repr

/-- Outcome of the interaction with the external SSH collaborator inside
one `execRemote` call: either `client.NewSession()` failed (with the
rendered error text), or the session ran and produced combined output
bytes plus a `RemoteResult`. -/
inductive SessionOutcome where
  | noSession (errBytes : List Nat)
  | ran (output : List Nat) (res : RemoteResult)
deriving DecidableEq, Repr

/-- Exit code chosen by `execRemote` after `CombinedOutput`: an
`*ssh.ExitError` yields its `ExitStatus()`, any other error yields 1,
no error yields 0. -/
def exitCodeOf : RemoteResult → Nat
  | RemoteResult.success => 0
  | RemoteResult.exitError status => status
  | RemoteResult.otherError => 1

/-- `daemon.execRemote(client, cmd, enc, cfg)` as the ordered list of
frames it emits on the connection's shared encoder.  Steps, per source:
split the command with `strings.Fields` and return silently when empty;
reject a first token missing from the allow-list with a `Stderr` message
and `Exit` code 1 (no session is opened, so the result does not depend on
the `SessionOutcome`); on `NewSession` failure emit the `SSH session
error` message and `Exit` 255; otherwise emit the combined output as one
`Stdout` frame only when nonempty, then the `Exit` frame. -/
def execRemote (allowed : List (List Nat)) (cmd : List Nat) (sr : SessionOutcome) :
    List Frame :=
  match stringsFields cmd with
  | [] => []
  | tok :: _ =>
    if !IsCommandAllowed allowed tok then
      [⟨TypeStderr, str2bytes ("Command not allowed: ") ++ tok ++ [10]⟩,
       ⟨TypeExit, intToBytes 1⟩]
    else
      match sr with
      | SessionOutcome.noSession errBytes =>
        [⟨TypeStderr, str2bytes ("SSH session error: ") ++ errBytes ++ [10]⟩,
         ⟨TypeExit, intToBytes 255⟩]
      | SessionOutcome.ran output res =>
        (if 0 < output.length then [⟨TypeStdout, output⟩] else []) ++
          [⟨TypeExit, intToBytes (exitCodeOf res)⟩]

/-- C1: for every command line accepted by the per-connection handler
(nonempty after trimming, hence with a nonempty `strings.Fields` split),
`execRemote` emits exactly one `Exit` frame, that `Exit` frame is the last
frame emitted, every earlier frame is not an `Exit`, and a `Stdout` frame
is emitted only when the session ran and its captured output is
nonempty (the `Stdout` frame therefore precedes the `Exit` frame). -/
theorem C1_exec_remote_exit_last (allowed : List (List Nat)) (cmd : List Nat)
    (sr : SessionOutcome) (hne : stringsFields cmd ≠ []) :
    (execRemote allowed cmd sr).countP (fun f => f.kind == TypeExit) = 1 ∧
    ((execRemote allowed cmd sr).getLast?).map Frame.kind = some TypeExit ∧
    (∀ f ∈ (execRemote allowed cmd sr).dropLast, f.kind ≠ TypeExit) ∧
    ((∃ f ∈ execRemote allowed cmd sr, f.kind = TypeStdout) →
      ∃ output res, sr = SessionOutcome.ran output res ∧ output ≠ []) := by
  unfold execRemote
  match hsf : stringsFields cmd with
  | [] => exact absurd hsf hne
  | tok :: restToks =>
    by_cases hallow : IsCommandAllowed allowed tok
    · cases sr with
      | noSession errBytes =>
        refine ⟨by simp [hallow, TypeStderr, TypeExit, List.countP_cons], ?_, ?_, ?_⟩
        · simp [hallow]
        · intro f hf
          simp [hallow] at hf
          simp [hf, TypeStderr, TypeExit]
        · intro ⟨f, hf, hk⟩
          simp [hallow] at hf
          rcases hf with rfl | rfl <;> simp [TypeStderr, TypeExit, TypeStdout] at hk
      | ran output res =>
        by_cases hout : 0 < output.length
        · refine ⟨by simp [hallow, hout, TypeStdout, TypeExit, List.countP_cons], ?_, ?_, ?_⟩
          · simp [hallow, hout]
          · intro f hf
            simp [hallow, hout] at hf
            simp [hf, TypeStdout, TypeExit]
          · intro _
            exact ⟨output, res, rfl, by
              intro he
              rw [he] at hout
              simp at hout⟩
        · refine ⟨by simp [hallow, hout, TypeExit, List.countP_cons], ?_, ?_, ?_⟩
          · simp [hallow, hout]
          · intro f hf
            simp [hallow, hout] at hf
          · intro ⟨f, hf, hk⟩
            simp [hallow, hout] at hf
            simp [hf, TypeExit, TypeStdout] at hk
    · refine ⟨by simp [hallow, TypeStderr, TypeExit, List.countP_cons], ?_, ?_, ?_⟩
      · simp [hallow]
      · intro f hf
        simp [hallow] at hf
        simp [hf, TypeStderr, TypeExit]
      · intro ⟨f, hf, hk⟩
        simp [hallow] at hf
        rcases hf with rfl | rfl <;> simp [TypeStderr, TypeExit, TypeStdout] at hk

/-- C1 witness: a concrete accepted command emits exactly one `Exit`
frame. -/
theorem C1_exec_remote_exit_last_witness :
    (execRemote [str2bytes ("echo")] (str2bytes ("echo hi"))
        (SessionOutcome.ran [104] RemoteResult.success)).countP
      (fun f => f.kind == TypeExit) = 1 :=
  (C1_exec_remote_exit_last [str2bytes ("echo")] (str2bytes ("echo hi"))
    (SessionOutcome.ran [104] RemoteResult.success) (by decide)).1

/-- C4: a nonempty command whose first whitespace token is not byte-equal
to any allow-list entry makes `execRemote` emit exactly the `Stderr` frame
`Command not allowed: <token>\n` followed by the `Exit` frame with code 1;
the result is the same for every `SessionOutcome`, i.e. no remote session
is consulted. -/
theorem C4_command_not_allowed (allowed : List (List Nat)) (cmd : List Nat)
    (sr : SessionOutcome) (tok : List Nat) (restToks : List (List Nat))
    (hf : stringsFields cmd = tok :: restToks)
    (hna : IsCommandAllowed allowed tok = false) :
    execRemote allowed cmd sr =
      [⟨TypeStderr, str2bytes ("Command not allowed: ") ++ tok ++ [10]⟩,
       ⟨TypeExit, intToBytes 1⟩] := by
  unfold execRemote
  rw [hf]
  simp [hna]

/-- C4 witness: with allow-list `["echo"]`, the command `rm -rf /` is
rejected with the literal message and exit code 1, for an arbitrary
session outcome. -/
theorem C4_command_not_allowed_witness :
    execRemote [str2bytes ("echo")] (str2bytes ("rm -rf /"))
        (SessionOutcome.ran [] RemoteResult.success) =
      [⟨TypeStderr, str2bytes ("Command not allowed: ") ++ str2bytes ("rm") ++ [10]⟩,
       ⟨TypeExit, intToBytes 1⟩] :=
  C4_command_not_allowed [str2bytes ("echo")] (str2bytes ("rm -rf /"))
    (SessionOutcome.ran [] RemoteResult.success) (str2bytes ("rm"))
    [str2bytes ("-rf"), str2bytes ("/")] (by decide) (by decide)

/-! ## Single-instance lock (`ipc.AcquireLock`)

Source steps: `os.MkdirAll` on the parent directory, `os.OpenFile` with
`O_CREATE|O_RDWR` (no `O_TRUNC`, so prior file contents survive and a new
file is empty), then `unix.Flock(fd, unix.LOCK_EX)` — a *blocking*
exclusive lock, without `LOCK_NB` (the source comment reads: "Use LOCK_NB
if you want to fail immediately, but here we wait (LOCK_EX) as per
original logic").  On a `Flock` error the file is closed and the error
returned.  On success the file handle is returned; nothing is truncated
and nothing is written. -/

/-- State of the lock file when `AcquireLock` runs: whether the file
already exists, its current bytes, and whether another process currently
holds the exclusive advisory lock. -/
structure LockFileState where
  present : Bool
  content : List Nat
  held : Bool
deriving DecidableEq, Repr

/-- Result of running `ipc.AcquireLock`.  `blocksWaiting` is the
`LOCK_EX`-without-`LOCK_NB` case: the call suspends until the current
holder releases.  `flockErrorClosed` is a `Flock` error return (after
closing the descriptor).  `success` carries the lock file's bytes after
the call. -/
inductive AcquireOutcome where
  | mkdirError
  | openError
  | flockErrorClosed
  | blocksWaiting
  | success (finalContent : List Nat)
deriving DecidableEq, Repr

/-- `ipc.AcquireLock(lockPath)`.  The booleans model whether the mkdir,
open and flock system calls themselves fail for environmental reasons. -/
def AcquireLock (mkdirOk openOk flockOk : Bool) (st : LockFileState) : AcquireOutcome :=
  if !mkdirOk then AcquireOutcome.mkdirError
  else if !openOk then AcquireOutcome.openError
  else
    let contentAfterOpen := if st.present then st.content else []
    if st.held then AcquireOutcome.blocksWaiting
    else if !flockOk then AcquireOutcome.flockErrorClosed
    else AcquireOutcome.success contentAfterOpen

/-- Decimal ASCII rendering of a PID, as the spec says `acquire` should
write into the lock file. -/
def decimalAscii (pid : Nat) : List Nat := (Nat.repr pid).toList.map Char.toNat

/-- C2 counterexample: with the lock already held by another process (and
mkdir/open succeeding), `AcquireLock` does not fail fast with an
`AlreadyHeld`-style error return after closing the descriptor
(`flockErrorClosed`); it blocks waiting for the holder, because the
source passes `LOCK_EX` without `LOCK_NB`. -/
theorem C2_acquire_lock_fail_fast_counterexample :
    AcquireLock true true true ⟨true, [], true⟩ = AcquireOutcome.blocksWaiting ∧
    AcquireOutcome.blocksWaiting ≠ AcquireOutcome.flockErrorClosed := by
  decide

/-- C2 amended: whenever another process holds the exclusive advisory
lock on the same path (and mkdir/open succeed), `AcquireLock` blocks
waiting for the release instead of returning; it never produces an
immediate `AlreadyHeld` failure for a held lock. -/
theorem C2_acquire_lock_blocks (flockOk : Bool) (st : LockFileState)
    (hh : st.held = true) :
    AcquireLock true true flockOk st = AcquireOutcome.blocksWaiting := by
  unfold AcquireLock
  simp [hh]

/-- C2 witness: concrete held-lock state on which the acquire blocks. -/
theorem C2_acquire_lock_blocks_witness :
    AcquireLock true true true ⟨true, [49, 50], true⟩ = AcquireOutcome.blocksWaiting :=
  C2_acquire_lock_blocks true ⟨true, [49, 50], true⟩ (by decide)

/-- C6 counterexample: a successful acquire on a fresh (absent) lock file
leaves the file empty — it does not contain the caller's PID in decimal
ASCII (shown here against PID 1234; the code writes nothing for any
PID). -/
theorem C6_pid_write_counterexample :
    AcquireLock true true true ⟨false, [], false⟩ = AcquireOutcome.success [] ∧
    ([] : List Nat) ≠ decimalAscii 1234 := by
  decide

/-- C6 amended: after every successful acquire, the lock file's bytes are
exactly what they were before the call (empty when the open created the
file): `AcquireLock` neither truncates the file nor writes the caller's
PID. -/
theorem C6_acquire_lock_content_unchanged (mkdirOk openOk flockOk : Bool)
    (st : LockFileState) (c : List Nat)
    (h : AcquireLock mkdirOk openOk flockOk st = AcquireOutcome.success c) :
    c = (if st.present then st.content else []) := by
  cases hmk : mkdirOk <;> cases hop : openOk <;> cases hfl : flockOk <;>
    cases hheld : st.held <;>
      simp_all [AcquireLock]

/-- C6 witness: acquiring on a file that held the bytes `"AB"` returns
those same bytes. -/
theorem C6_acquire_lock_content_unchanged_witness :
    ([65, 66] : List Nat) = (if (true : Bool) then [65, 66] else []) :=
  C6_acquire_lock_content_unchanged true true true ⟨true, [65, 66], false⟩ [65, 66]
    (by decide)

/-! ## Daemon accept loop (`daemon.serveLoop`)

The loop keeps an `int32` in-flight connection counter (`activeConns`):
incremented before a connection handler goroutine is dispatched,
decremented when the handler returns.  Each iteration re-arms the accept
deadline and calls `Accept`; on a timeout error it shuts down only when
the counter is zero, otherwise it loops; any other accept error ends the
loop.  We model a run as the sequence of loop-visible events, with
handler completions (`handlerDone`) interleaved arbitrarily. -/

/-- Events observed by `serveLoop`: an accepted connection (counter
increment + handler dispatch), a timeout error from `Accept`, any other
accept error, or an asynchronous handler completion (counter
decrement). -/
inductive ServeEvent where
  | acceptConn
  | acceptTimeout
  | acceptOtherError
  | handlerDone
deriving DecidableEq, Repr

/-- How the modelled run of `serveLoop` ends: still running when the
event sequence is exhausted, the idle-timeout shutdown, or the
shutdown on a non-timeout accept error. -/
inductive ServeExit where
  | stillRunning
  | idleShutdown
  | errorShutdown
deriving DecidableEq, Repr

/-- `daemon.serveLoop` over an event sequence, returning the final value
of the in-flight counter and how the loop ended.  On `acceptTimeout` the
loop continues exactly when the counter is positive
(`atomic.LoadInt32(&activeConns) > 0`) and otherwise returns. -/
def serveLoop : Int → List ServeEvent → Int × ServeExit
  | n, [] => (n, ServeExit.stillRunning)
  | n, ServeEvent.acceptConn :: rest => serveLoop (n + 1) rest
  | n, ServeEvent.handlerDone :: rest => serveLoop (n - 1) rest
  | n, ServeEvent.acceptTimeout :: rest =>
    if 0 < n then serveLoop n rest else (n, ServeExit.idleShutdown)
  | n, ServeEvent.acceptOtherError :: _ => (n, ServeExit.errorShutdown)

/-- C7: the accept loop shuts down on an accept timeout only when the
in-flight connection counter is zero: a timeout with a positive counter
re-arms the deadline and continues; a timeout with a non-positive counter
shuts down; and every idle shutdown happens at a non-positive counter
value (so the daemon never terminates due to idleness while a connection
handler is in flight). -/
theorem C7_idle_shutdown_only_when_idle :
    (∀ (n : Int) (rest : List ServeEvent), 0 < n →
      serveLoop n (ServeEvent.acceptTimeout :: rest) = serveLoop n rest) ∧
    (∀ (n : Int) (rest : List ServeEvent), n ≤ 0 →
      serveLoop n (ServeEvent.acceptTimeout :: rest) = (n, ServeExit.idleShutdown)) ∧
    (∀ (n : Int) (evs : List ServeEvent) (m : Int),
      serveLoop n evs = (m, ServeExit.idleShutdown) → m ≤ 0) := by
  refine ⟨?_, ?_, ?_⟩
  · intro n rest h
    simp [serveLoop, h]
  · intro n rest h
    simp [serveLoop, show ¬ 0 < n by omega]
  · intro n evs
    induction evs generalizing n with
    | nil =>
      intro m h
      simp [serveLoop] at h
    | cons e rest ih =>
      intro m h
      cases e with
      | acceptConn =>
        simp only [serveLoop] at h
        exact ih (n + 1) m h
      | handlerDone =>
        simp only [serveLoop] at h
        exact ih (n - 1) m h
      | acceptTimeout =>
        simp only [serveLoop] at h
        split at h
        · exact ih n m h
        · rename_i hn
          have hnm : n = m := by simpa using h
          omega
      | acceptOtherError =>
        simp [serveLoop] at h

/-- C7 witness: concrete runs — a timeout at counter 1 continues, a
timeout at counter 0 shuts down (at counter value 0). -/
theorem C7_idle_shutdown_only_when_idle_witness :
    (serveLoop 1 [ServeEvent.acceptTimeout] = serveLoop 1 []) ∧
    (serveLoop 0 [ServeEvent.acceptTimeout] = (0, ServeExit.idleShutdown)) ∧
    ((0 : Int) ≤ 0) :=
  ⟨C7_idle_shutdown_only_when_idle.1 1 [] (by decide),
   C7_idle_shutdown_only_when_idle.2.1 0 [] (by decide),
   C7_idle_shutdown_only_when_idle.2.2 0 [ServeEvent.acceptTimeout] 0 (by decide)⟩

end Remote
